import Mathlib

/-!
Verification of the confirmation-state actor of the EmailConfirmation
repository (src/email_confirm.py).

The actor's state is embedded shallowly: the two Python dicts
`MailWorker._status : email -> {'sent','ts','confirmed','token'}` and
`MailWorker._token_map : token -> email` become association lists with
Python-dict semantics (an assignment to an existing key replaces the value
in place, an assignment to a new key appends, `pop` removes the binding).
Wall-clock time (`time.time()`) and the freshly generated token
(`secrets.token_urlsafe(32)`) are the only effects inside a handler; both
are passed to the embedded handlers as explicit arguments.  Time is
modelled as an integer number of seconds, which makes the truncation
`int(time.time() - rec["ts"])` in the status handler the identity.
-/

namespace EmailConfirm

/-- RESEND_WINDOW from email_confirm.py: pause (seconds) before a
resend of the confirmation mail is allowed. -/
def RESEND_WINDOW : Int := 30

/-- One value of the `MailWorker._status` dict:
`{'sent': bool, 'ts': float, 'confirmed': bool, 'token': str}`. -/
structure Rec where
  sent : Bool
  ts : Int
  confirmed : Bool
  token : String
deriving DecidableEq, Repr

/-- The reply dict built by `MailWorker._handle_status`:
`{'sent': int(rec['sent']), 'timer': remain, 'confirmed': int(rec['confirmed'])}`
(the 0/1 ints are rendered as the Bools they encode). -/
structure StatusAns where
  sent : Bool
  timer : Int
  confirmed : Bool
deriving DecidableEq, Repr

/-- A Python dict with string keys, as an association list. -/
abbrev Dict (β : Type) := List (String × β)

/-- Lookup, as in d.get(k) / d[k] on a dict. -/
def dlookup {β : Type} (k : String) : Dict β → Option β
  | [] => none
  | (k', v) :: l => if k = k' then some v else dlookup k l

/-- Assignment d[k] = v on a dict: replace in place if the key exists, else append
(CPython dicts preserve insertion order and keep the slot on update). -/
def dinsert {β : Type} (k : String) (v : β) : Dict β → Dict β
  | [] => [(k, v)]
  | (k', v') :: l => if k' = k then (k, v) :: l else (k', v') :: dinsert k v l

/-- Effect of d.pop(k, None) on a dict: drop the binding of k if present. -/
def dpop {β : Type} (k : String) : Dict β → Dict β
  | [] => []
  | (k', v') :: l => if k' = k then l else (k', v') :: dpop k l

/-- The mutable state of `MailWorker`: `_status` and `_token_map`. -/
structure WorkerState where
  status : Dict Rec
  token_map : Dict String
deriving DecidableEq, Repr

/-- The state of a freshly constructed `MailWorker`: both dicts empty. -/
def initState : WorkerState := ⟨[], []⟩

/-- Embeds MailWorker._handle_request (email_confirm.py lines 80-98), with the
current time `now` and the freshly generated token `tok` passed in.
Returns the new state and the Bool set on the reply future. -/
def handle_request (s : WorkerState) (email : String) (now : Int) (tok : String) :
    WorkerState × Bool :=
  match dlookup email s.status with
  | some rec =>
    if rec.confirmed then
      (s, true)
    else if rec.sent ∧ now - rec.ts < RESEND_WINDOW then
      (s, false)
    else
      ({ status := dinsert email ⟨false, 0, false, tok⟩ s.status,
         token_map := dinsert tok email (dpop rec.token s.token_map) }, true)
  | none =>
      ({ status := dinsert email ⟨false, 0, false, tok⟩ s.status,
         token_map := dinsert tok email s.token_map }, true)

/-- Embeds MailWorker._cleanup (email_confirm.py lines 173-175). -/
def cleanup (s : WorkerState) (email tok : String) : WorkerState :=
  { status := dpop email s.status, token_map := dpop tok s.token_map }

/-- Embeds MailWorker._handle_status (email_confirm.py lines 100-113): the reply
is built first, then `_cleanup` runs if the record is confirmed. -/
def handle_status (s : WorkerState) (email : String) (now : Int) :
    WorkerState × Option StatusAns :=
  match dlookup email s.status with
  | none => (s, none)
  | some rec =>
    let remain : Int := if rec.sent then max 0 (RESEND_WINDOW - (now - rec.ts)) else 0
    let ans : StatusAns := ⟨rec.sent, remain, rec.confirmed⟩
    (if rec.confirmed then cleanup s email rec.token else s, some ans)

/-- Embeds MailWorker._handle_confirm (email_confirm.py lines 115-125).  The
token is popped unconditionally; `if not email:` in the source is Python
truthiness, so an empty-string address is treated like a missing token. -/
def handle_confirm (s : WorkerState) (tok : String) : WorkerState × Bool :=
  match dlookup tok s.token_map with
  | none => ({ s with token_map := dpop tok s.token_map }, false)
  | some email =>
    let s1 : WorkerState := { s with token_map := dpop tok s.token_map }
    if email = "" then (s1, false)
    else
      match dlookup email s1.status with
      | some rec =>
        ({ s1 with status := dinsert email { rec with confirmed := true } s1.status }, true)
      | none => (s1, false)

/-- The selection predicate of the dispatch loop:
`not r['sent'] and not r['confirmed']`. -/
def wantsSend (r : Rec) : Bool := !r.sent && !r.confirmed

/-- The `(address, token)` batch handed to the delivery collaborator by
`MailWorker._batch_sender` (email_confirm.py lines 131-132). -/
def batchOf (s : WorkerState) : List (String × String) :=
  (s.status.filter fun p => wantsSend p.2).map fun p => (p.1, p.2.token)

/-- The per-record mutation of one dispatch cycle:
`rec['sent'] = True; rec['ts'] = now` for every selected record. -/
def markSent (now : Int) (r : Rec) : Rec :=
  if wantsSend r then { r with sent := true, ts := now } else r

/-- One iteration of `MailWorker._batch_sender` (email_confirm.py lines
128-139), given the wall-clock time taken after `_send_batch` returns.
`_send_batch` catches every per-item SMTP error (lines 147-150) and never
touches the state, so the per-item delivery outcomes are threaded through
only to record that the state transition ignores them. -/
def batch_cycle (s : WorkerState) (now : Int) (outcomes : List Bool) : WorkerState :=
  if (batchOf s).isEmpty then s
  else
    let _ := outcomes
    { s with status := s.status.map fun p => (p.1, markSent now p.2) }

/-- Freshness of a generated token: `secrets.token_urlsafe(32)` draws 256
bits, so a fresh token collides neither with an indexed token nor with the
token field of any live record (the spec's uniqueness-by-entropy premise). -/
def FreshTok (s : WorkerState) (tok : String) : Prop :=
  dlookup tok s.token_map = none ∧ ∀ p ∈ s.status, (p : String × Rec).2.token ≠ tok

instance (s : WorkerState) (tok : String) : Decidable (FreshTok s tok) := by
  unfold FreshTok; infer_instance

/-- One observable step of the actor: one handled message or one dispatch
cycle (the actor serializes these; see spec section 4.3). -/
inductive Step : WorkerState → WorkerState → Prop
  | request (s : WorkerState) (email : String) (now : Int) (tok : String)
      (h : FreshTok s tok) : Step s (handle_request s email now tok).1
  | status (s : WorkerState) (email : String) (now : Int) :
      Step s (handle_status s email now).1
  | confirm (s : WorkerState) (tok : String) :
      Step s (handle_confirm s tok).1
  | dispatch (s : WorkerState) (now : Int) (outs : List Bool) :
      Step s (batch_cycle s now outs)

/-- States reachable from the fresh worker by any sequence of steps. -/
inductive Reachable : WorkerState → Prop
  | init : Reachable initState
  | step {s s' : WorkerState} : Reachable s → Step s s' → Reachable s'

/-- The keys of a dict are pairwise distinct (true of every Python dict). -/
def keysND {β : Type} (l : Dict β) : Prop := (l.map Prod.fst).Nodup

instance {β : Type} [DecidableEq β] (l : Dict β) : Decidable (keysND l) := by
  unfold keysND; infer_instance

/-- An unconfirmed record at a non-empty address is indexed: the token map
sends its token back to its address. -/
def recordIndexed (s : WorkerState) (p : String × Rec) : Prop :=
  p.1 ≠ "" → p.2.confirmed = false → dlookup p.2.token s.token_map = some p.1

instance (s : WorkerState) (p : String × Rec) : Decidable (recordIndexed s p) := by
  unfold recordIndexed; infer_instance

/-- A token-map entry is backed: its address holds a live unconfirmed
record whose token field is the entry's key. -/
def entryBackedB (s : WorkerState) (q : String × String) : Bool :=
  match dlookup q.2 s.status with
  | some r => r.token == q.1 && !r.confirmed
  | none => false

/-- The token field determines the address among live records. -/
def tokenInj (s : WorkerState) : Prop :=
  ∀ p ∈ s.status, ∀ p' ∈ s.status,
    (p : String × Rec).2.token = (p' : String × Rec).2.token → p.1 = p'.1

/-- The state invariant maintained by every handler and by the dispatch
cycle. -/
def Inv (s : WorkerState) : Prop :=
  keysND s.status ∧ keysND s.token_map ∧
  (∀ p ∈ s.status, recordIndexed s p) ∧
  (∀ q ∈ s.token_map, entryBackedB s q = true) ∧
  tokenInj s

/-! ### Dictionary lemmas -/

@[simp]
theorem dlookup_nil {β : Type} (k : String) : dlookup (β := β) k [] = none := rfl

@[simp]
theorem dlookup_cons {β : Type} (k k' : String) (v : β) (l : Dict β) :
    dlookup k ((k', v) :: l) = if k = k' then some v else dlookup k l := rfl

theorem dpop_cons_eq {β : Type} {k k' : String} (h : k' = k) (v' : β) (l : Dict β) :
    dpop k ((k', v') :: l) = l := by simp [dpop, h]

theorem dpop_cons_ne {β : Type} {k k' : String} (h : ¬k' = k) (v' : β) (l : Dict β) :
    dpop k ((k', v') :: l) = (k', v') :: dpop k l := by simp [dpop, h]

theorem dinsert_cons_eq {β : Type} {k k' : String} (h : k' = k) (v v' : β) (l : Dict β) :
    dinsert k v ((k', v') :: l) = (k, v) :: l := by simp [dinsert, h]

theorem dinsert_cons_ne {β : Type} {k k' : String} (h : ¬k' = k) (v v' : β) (l : Dict β) :
    dinsert k v ((k', v') :: l) = (k', v') :: dinsert k v l := by simp [dinsert, h]

theorem mem_of_dlookup_some {β : Type} {k : String} {v : β} {l : Dict β}
    (h : dlookup k l = some v) : (k, v) ∈ l := by
  induction l with
  | nil => simp at h
  | cons hd tl ih =>
    obtain ⟨k', v'⟩ := hd
    by_cases hk : k = k'
    · subst hk
      simp at h
      subst h
      exact List.mem_cons_self _ _
    · simp [hk] at h
      exact List.mem_cons_of_mem _ (ih h)

theorem keysND_cons {β : Type} {k : String} {v : β} {l : Dict β}
    (h : keysND ((k, v) :: l)) : k ∉ l.map Prod.fst ∧ keysND l := by
  simpa [keysND] using h

theorem dlookup_of_mem {β : Type} {p : String × β} {l : Dict β}
    (hnd : keysND l) (hp : p ∈ l) : dlookup p.1 l = some p.2 := by
  induction l with
  | nil => simp at hp
  | cons hd tl ih =>
    obtain ⟨k', v'⟩ := hd
    rcases List.mem_cons.mp hp with h | h
    · subst h; simp
    · have hne : p.1 ≠ k' := by
        intro he
        exact (keysND_cons hnd).1 (he ▸ List.mem_map_of_mem Prod.fst h)
      simp [hne]
      exact ih (keysND_cons hnd).2 h

theorem dlookup_eq_none_iff {β : Type} {k : String} {l : Dict β} :
    dlookup k l = none ↔ k ∉ l.map Prod.fst := by
  induction l with
  | nil => simp
  | cons hd tl ih =>
    obtain ⟨k', v'⟩ := hd
    by_cases hk : k = k' <;> simp [hk, ih]

@[simp]
theorem dlookup_dinsert_self {β : Type} (k : String) (v : β) (l : Dict β) :
    dlookup k (dinsert k v l) = some v := by
  induction l with
  | nil => simp [dinsert]
  | cons hd tl ih =>
    obtain ⟨k', v'⟩ := hd
    by_cases hk : k' = k
    · subst hk; simp [dinsert]
    · simp [dinsert, hk, Ne.symm hk, ih]

theorem dlookup_dinsert_ne {β : Type} {k k' : String} (h : k ≠ k') (v : β) (l : Dict β) :
    dlookup k (dinsert k' v l) = dlookup k l := by
  induction l with
  | nil => simp [dinsert, h]
  | cons hd tl ih =>
    obtain ⟨k'', v''⟩ := hd
    by_cases hk : k'' = k'
    · subst hk; simp [dinsert, h]
    · by_cases hkk : k = k'' <;> simp [dinsert, hk, hkk, ih]

theorem dlookup_dpop_ne {β : Type} {k k' : String} (h : k ≠ k') (l : Dict β) :
    dlookup k (dpop k' l) = dlookup k l := by
  induction l with
  | nil => simp [dpop]
  | cons hd tl ih =>
    obtain ⟨k'', v''⟩ := hd
    by_cases hk : k'' = k'
    · subst hk; simp [dpop, h]
    · by_cases hkk : k = k'' <;> simp [dpop, hk, hkk, ih]

theorem dpop_of_dlookup_none {β : Type} {k : String} {l : Dict β}
    (h : dlookup k l = none) : dpop k l = l := by
  induction l with
  | nil => rfl
  | cons hd tl ih =>
    obtain ⟨k', v'⟩ := hd
    by_cases hk : k = k'
    · simp [hk] at h
    · simp only [dlookup_cons, if_neg hk] at h
      rw [dpop_cons_ne (fun he => hk he.symm), ih h]

theorem dlookup_dpop_self {β : Type} {k : String} {l : Dict β}
    (hnd : keysND l) : dlookup k (dpop k l) = none := by
  induction l with
  | nil => rfl
  | cons hd tl ih =>
    obtain ⟨k', v'⟩ := hd
    by_cases hk : k' = k
    · rw [dpop_cons_eq hk]
      rw [dlookup_eq_none_iff, ← hk]
      exact (keysND_cons hnd).1
    · rw [dpop_cons_ne hk, dlookup_cons, if_neg (fun he => hk he.symm)]
      exact ih (keysND_cons hnd).2

theorem keys_dpop_sublist {β : Type} (k : String) (l : Dict β) :
    ((dpop k l).map Prod.fst).Sublist (l.map Prod.fst) := by
  induction l with
  | nil => simp [dpop]
  | cons hd tl ih =>
    obtain ⟨k', v'⟩ := hd
    by_cases hk : k' = k
    · rw [dpop_cons_eq hk]
      simp
    · rw [dpop_cons_ne hk]
      simpa using ih.cons₂ k'

theorem keysND_dpop {β : Type} {k : String} {l : Dict β} (hnd : keysND l) :
    keysND (dpop k l) := hnd.sublist (keys_dpop_sublist k l)

theorem mem_dinsert_weak {β : Type} {p : String × β} {k : String} {v : β} {l : Dict β}
    (h : p ∈ dinsert k v l) : p = (k, v) ∨ p ∈ l := by
  induction l with
  | nil => simpa [dinsert] using h
  | cons hd tl ih =>
    obtain ⟨k', v'⟩ := hd
    by_cases hk : k' = k
    · rw [dinsert_cons_eq hk] at h
      rcases List.mem_cons.mp h with h' | h'
      · exact Or.inl h'
      · exact Or.inr (List.mem_cons_of_mem _ h')
    · rw [dinsert_cons_ne hk] at h
      rcases List.mem_cons.mp h with h' | h'
      · exact Or.inr (h' ▸ List.mem_cons_self _ _)
      · rcases ih h' with h'' | h''
        · exact Or.inl h''
        · exact Or.inr (List.mem_cons_of_mem _ h'')

theorem mem_keys_dinsert {β : Type} {a k : String} {v : β} {l : Dict β}
    (h : a ∈ (dinsert k v l).map Prod.fst) : a = k ∨ a ∈ l.map Prod.fst := by
  rcases List.mem_map.mp h with ⟨p, hp, hpa⟩
  rcases mem_dinsert_weak hp with h' | h'
  · left
    rw [← hpa, h']
  · right
    rw [← hpa]
    exact List.mem_map_of_mem Prod.fst h'

theorem keysND_dinsert {β : Type} {k : String} (v : β) {l : Dict β} (hnd : keysND l) :
    keysND (dinsert k v l) := by
  induction l with
  | nil => simp [dinsert, keysND]
  | cons hd tl ih =>
    obtain ⟨k', v'⟩ := hd
    have h1 := keysND_cons hnd
    by_cases hk : k' = k
    · rw [keysND, dinsert_cons_eq hk]
      refine List.nodup_cons.mpr ⟨?_, h1.2⟩
      rw [← hk]
      exact h1.1
    · rw [keysND, dinsert_cons_ne hk]
      refine List.nodup_cons.mpr ⟨?_, ih h1.2⟩
      intro hmem
      rcases mem_keys_dinsert hmem with h' | h'
      · exact hk h'
      · exact h1.1 h'

theorem mem_dinsert {β : Type} {p : String × β} {k : String} {v : β} {l : Dict β}
    (hnd : keysND l) : p ∈ dinsert k v l ↔ p = (k, v) ∨ (p ∈ l ∧ p.1 ≠ k) := by
  induction l with
  | nil => simp [dinsert]
  | cons hd tl ih =>
    obtain ⟨k', v'⟩ := hd
    have h1 := keysND_cons hnd
    have ih' := ih h1.2
    by_cases hk : k' = k
    · rw [dinsert_cons_eq hk, List.mem_cons, List.mem_cons]
      constructor
      · intro h
        rcases h with h | h
        · exact Or.inl h
        · have hne : p.1 ≠ k := by
            intro hpe
            exact h1.1 (hk ▸ hpe ▸ List.mem_map_of_mem Prod.fst h)
          exact Or.inr ⟨Or.inr h, hne⟩
      · intro h
        rcases h with h | ⟨h2 | h2, hne⟩
        · exact Or.inl h
        · exact absurd (by rw [h2, ← hk]) hne
        · exact Or.inr h2
    · rw [dinsert_cons_ne hk, List.mem_cons, List.mem_cons, ih']
      constructor
      · intro h
        rcases h with h | h | ⟨h2, hne⟩
        · exact Or.inr ⟨Or.inl h, by rw [h]; show k' ≠ k; exact hk⟩
        · exact Or.inl h
        · exact Or.inr ⟨Or.inr h2, hne⟩
      · intro h
        rcases h with h | ⟨h2 | h2, hne⟩
        · exact Or.inr (Or.inl h)
        · exact Or.inl h2
        · exact Or.inr (Or.inr ⟨h2, hne⟩)

theorem mem_dpop {β : Type} {p : String × β} {k : String} {l : Dict β}
    (hnd : keysND l) : p ∈ dpop k l ↔ p ∈ l ∧ p.1 ≠ k := by
  induction l with
  | nil => simp [dpop]
  | cons hd tl ih =>
    obtain ⟨k', v'⟩ := hd
    have h1 := keysND_cons hnd
    have ih' := ih h1.2
    by_cases hk : k' = k
    · rw [dpop_cons_eq hk, List.mem_cons]
      constructor
      · intro hp
        have hne : p.1 ≠ k := by
          intro hpe
          exact h1.1 (hk ▸ hpe ▸ List.mem_map_of_mem Prod.fst hp)
        exact ⟨Or.inr hp, hne⟩
      · rintro ⟨h2 | h2, hne⟩
        · exact absurd (by rw [h2, ← hk]) hne
        · exact h2
    · rw [dpop_cons_ne hk, List.mem_cons, List.mem_cons, ih']
      constructor
      · intro h
        rcases h with h | ⟨h2, hne⟩
        · exact ⟨Or.inl h, by rw [h]; show k' ≠ k; exact hk⟩
        · exact ⟨Or.inr h2, hne⟩
      · rintro ⟨h2 | h2, hne⟩
        · exact Or.inl h2
        · exact Or.inr ⟨h2, hne⟩

theorem dlookup_map_value {β γ : Type} (k : String) (f : β → γ) (l : Dict β) :
    dlookup k (l.map fun p => (p.1, f p.2)) = (dlookup k l).map f := by
  induction l with
  | nil => simp
  | cons hd tl ih =>
    obtain ⟨k', v'⟩ := hd
    by_cases hk : k = k' <;> simp [hk, ih]

theorem keys_map_value {β γ : Type} (f : β → γ) (l : Dict β) :
    (l.map fun p => (p.1, f p.2)).map Prod.fst = l.map Prod.fst := by
  induction l with
  | nil => rfl
  | cons hd tl ih => simp [ih]

theorem entryBackedB_eq_true_iff {s : WorkerState} {q : String × String} :
    entryBackedB s q = true ↔
      ∃ r, dlookup q.2 s.status = some r ∧ r.token = q.1 ∧ r.confirmed = false := by
  unfold entryBackedB
  cases h : dlookup q.2 s.status with
  | none => simp
  | some r => simp [Bool.and_eq_true, Bool.not_eq_true']

/-! ### Shape lemmas: each handler reduced under its branch conditions -/

theorem markSent_token (now : Int) (r : Rec) : (markSent now r).token = r.token := by
  unfold markSent; split <;> rfl

theorem markSent_confirmed (now : Int) (r : Rec) :
    (markSent now r).confirmed = r.confirmed := by
  unfold markSent; split <;> rfl

theorem handle_request_new {s : WorkerState} {email : String} (now : Int) (tok : String)
    (h : dlookup email s.status = none) :
    handle_request s email now tok =
      ({ status := dinsert email ⟨false, 0, false, tok⟩ s.status,
         token_map := dinsert tok email s.token_map }, true) := by
  unfold handle_request
  rw [h]

theorem handle_request_confirmed {s : WorkerState} {email : String} {rec : Rec}
    (now : Int) (tok : String) (h : dlookup email s.status = some rec)
    (hc : rec.confirmed = true) :
    handle_request s email now tok = (s, true) := by
  unfold handle_request
  rw [h]
  simp [hc]

theorem handle_request_toosoon {s : WorkerState} {email : String} {rec : Rec}
    {now : Int} (tok : String) (h : dlookup email s.status = some rec)
    (hc : rec.confirmed = false) (hs : rec.sent = true)
    (hw : now - rec.ts < RESEND_WINDOW) :
    handle_request s email now tok = (s, false) := by
  unfold handle_request
  rw [h]
  simp [hc, hs, hw]

theorem handle_request_resend {s : WorkerState} {email : String} {rec : Rec}
    {now : Int} (tok : String) (h : dlookup email s.status = some rec)
    (hc : rec.confirmed = false)
    (hw : ¬(rec.sent = true ∧ now - rec.ts < RESEND_WINDOW)) :
    handle_request s email now tok =
      ({ status := dinsert email ⟨false, 0, false, tok⟩ s.status,
         token_map := dinsert tok email (dpop rec.token s.token_map) }, true) := by
  unfold handle_request
  rw [h]
  simp only [hc, Bool.false_eq_true, if_false, if_neg hw]

theorem handle_status_absent {s : WorkerState} {email : String} (now : Int)
    (h : dlookup email s.status = none) :
    handle_status s email now = (s, none) := by
  unfold handle_status
  rw [h]

theorem handle_status_found {s : WorkerState} {email : String} {rec : Rec} (now : Int)
    (h : dlookup email s.status = some rec) :
    handle_status s email now =
      (if rec.confirmed then cleanup s email rec.token else s,
       some ⟨rec.sent, if rec.sent then max 0 (RESEND_WINDOW - (now - rec.ts)) else 0,
             rec.confirmed⟩) := by
  unfold handle_status
  rw [h]

theorem handle_confirm_unknown {s : WorkerState} {tok : String}
    (h : dlookup tok s.token_map = none) :
    handle_confirm s tok = (s, false) := by
  unfold handle_confirm
  rw [h, dpop_of_dlookup_none h]

theorem handle_confirm_empty {s : WorkerState} {tok : String}
    (h : dlookup tok s.token_map = some "") :
    handle_confirm s tok = ({ s with token_map := dpop tok s.token_map }, false) := by
  unfold handle_confirm
  rw [h]
  simp

theorem handle_confirm_found {s : WorkerState} {tok email : String} {rec : Rec}
    (h : dlookup tok s.token_map = some email) (hne : email ≠ "")
    (hr : dlookup email s.status = some rec) :
    handle_confirm s tok =
      ({ status := dinsert email { rec with confirmed := true } s.status,
         token_map := dpop tok s.token_map }, true) := by
  unfold handle_confirm
  rw [h]
  simp only [if_neg hne]
  rw [show ({ s with token_map := dpop tok s.token_map } : WorkerState).status
        = s.status from rfl, hr]

theorem handle_confirm_gone {s : WorkerState} {tok email : String}
    (h : dlookup tok s.token_map = some email) (hne : email ≠ "")
    (hr : dlookup email s.status = none) :
    handle_confirm s tok = ({ s with token_map := dpop tok s.token_map }, false) := by
  unfold handle_confirm
  rw [h]
  simp only [if_neg hne]
  rw [show ({ s with token_map := dpop tok s.token_map } : WorkerState).status
        = s.status from rfl, hr]

theorem batch_cycle_empty {s : WorkerState} (now : Int) (outs : List Bool)
    (h : (batchOf s).isEmpty = true) : batch_cycle s now outs = s := by
  unfold batch_cycle
  rw [h]
  rfl

theorem batch_cycle_nonempty {s : WorkerState} (now : Int) (outs : List Bool)
    (h : (batchOf s).isEmpty = false) :
    batch_cycle s now outs =
      { s with status := s.status.map fun p => (p.1, markSent now p.2) } := by
  unfold batch_cycle
  rw [h]
  rfl

/-! ### Preservation of the invariant -/

theorem inv_init : Inv initState := by
  refine ⟨?_, ?_, ?_, ?_, ?_⟩ <;> simp [initState, keysND, tokenInj]

theorem inv_dispatch (s : WorkerState) (now : Int) (outs : List Bool)
    (hInv : Inv s) : Inv (batch_cycle s now outs) := by
  obtain ⟨h1, h2, h3, h4, h5⟩ := hInv
  cases hb : (batchOf s).isEmpty with
  | true => rw [batch_cycle_empty now outs hb]; exact ⟨h1, h2, h3, h4, h5⟩
  | false =>
    rw [batch_cycle_nonempty now outs hb]
    refine ⟨?_, h2, ?_, ?_, ?_⟩
    · unfold keysND
      rw [keys_map_value]
      exact h1
    · intro p' hp'
      rcases List.mem_map.mp hp' with ⟨p, hp, hpe⟩
      subst hpe
      intro hne hcf
      rw [markSent_confirmed] at hcf
      show dlookup (markSent now p.2).token s.token_map = some p.1
      rw [markSent_token]
      exact h3 p hp hne hcf
    · intro q hq
      rw [entryBackedB_eq_true_iff]
      rcases entryBackedB_eq_true_iff.mp (h4 q hq) with ⟨r, hr, ht, hc⟩
      refine ⟨markSent now r, ?_, ?_, ?_⟩
      · show dlookup q.2 (s.status.map fun p => (p.1, markSent now p.2))
            = some (markSent now r)
        rw [dlookup_map_value, hr]
        rfl
      · rw [markSent_token, ht]
      · rw [markSent_confirmed, hc]
    · intro p' hp' q' hq' htok
      rcases List.mem_map.mp hp' with ⟨p, hp, hpe⟩
      rcases List.mem_map.mp hq' with ⟨q, hq, hqe⟩
      subst hpe
      subst hqe
      have htok' : p.2.token = q.2.token := by
        simpa [markSent_token] using htok
      show p.1 = q.1
      exact h5 p hp q hq htok'

theorem inv_status (s : WorkerState) (email : String) (now : Int)
    (hInv : Inv s) : Inv (handle_status s email now).1 := by
  obtain ⟨h1, h2, h3, h4, h5⟩ := hInv
  cases hrec : dlookup email s.status with
  | none => rw [handle_status_absent now hrec]; exact ⟨h1, h2, h3, h4, h5⟩
  | some rec =>
    rw [handle_status_found now hrec]
    cases hcf : rec.confirmed with
    | false => simp only [hcf, Bool.false_eq_true, if_false]; exact ⟨h1, h2, h3, h4, h5⟩
    | true =>
      simp only [hcf, if_true]
      have hmem : (email, rec) ∈ s.status := mem_of_dlookup_some hrec
      refine ⟨keysND_dpop h1, keysND_dpop h2, ?_, ?_, ?_⟩
      · intro p hp hne hcfp
        have hp' := (mem_dpop h1).mp hp
        have hptok : p.2.token ≠ rec.token := by
          intro he
          have h51 := h5 p hp'.1 (email, rec) hmem he
          have : p.2 = rec := by
            have := dlookup_of_mem h1 hp'.1
            rw [h51] at this
            rw [hrec] at this
            exact (Option.some.inj this).symm
          rw [this, hcf] at hcfp
          exact Bool.noConfusion hcfp
        show dlookup p.2.token (dpop rec.token s.token_map) = some p.1
        rw [dlookup_dpop_ne hptok]
        exact h3 p hp'.1 hne hcfp
      · intro q hq
        have hq' := (mem_dpop h2).mp hq
        rcases entryBackedB_eq_true_iff.mp (h4 q hq'.1) with ⟨r, hr, ht, hc⟩
        have hqe : q.2 ≠ email := by
          intro he
          rw [he, hrec] at hr
          have : r = rec := (Option.some.inj hr).symm
          rw [this, hcf] at hc
          exact Bool.noConfusion hc
        rw [entryBackedB_eq_true_iff]
        refine ⟨r, ?_, ht, hc⟩
        show dlookup q.2 (dpop email s.status) = some r
        rw [dlookup_dpop_ne hqe]
        exact hr
      · intro p hp q hq htok
        have hp' := (mem_dpop h1).mp hp
        have hq' := (mem_dpop h1).mp hq
        exact h5 p hp'.1 q hq'.1 htok

theorem inv_confirm (s : WorkerState) (tok : String) (hInv : Inv s) :
    Inv (handle_confirm s tok).1 := by
  obtain ⟨h1, h2, h3, h4, h5⟩ := hInv
  cases htk : dlookup tok s.token_map with
  | none => rw [handle_confirm_unknown htk]; exact ⟨h1, h2, h3, h4, h5⟩
  | some email =>
    have hqmem : (tok, email) ∈ s.token_map := mem_of_dlookup_some htk
    rcases entryBackedB_eq_true_iff.mp (h4 _ hqmem) with ⟨r, hr, hrt, hrc⟩
    have hrm : (email, r) ∈ s.status := mem_of_dlookup_some hr
    by_cases hemail : email = ""
    · rw [handle_confirm_empty (hemail ▸ htk)]
      refine ⟨h1, keysND_dpop h2, ?_, ?_, ?_⟩
      · intro p hp hne hcf
        have hptok : p.2.token ≠ tok := by
          intro he
          have h51 := h5 p hp (email, r) hrm (he.trans hrt.symm)
          exact hne (h51.trans hemail)
        show dlookup p.2.token (dpop tok s.token_map) = some p.1
        rw [dlookup_dpop_ne hptok]
        exact h3 p hp hne hcf
      · intro q hq
        exact h4 q ((mem_dpop h2).mp hq).1
      · intro p hp q hq htok
        exact h5 p hp q hq htok
    · rw [handle_confirm_found htk hemail hr]
      refine ⟨keysND_dinsert _ h1, keysND_dpop h2, ?_, ?_, ?_⟩
      · intro p hp hne hcf
        rcases (mem_dinsert h1).mp hp with rfl | ⟨hpold, hpne⟩
        · simp at hcf
        · have hptok : p.2.token ≠ tok := by
            intro he
            exact hpne (h5 p hpold (email, r) hrm (he.trans hrt.symm))
          show dlookup p.2.token (dpop tok s.token_map) = some p.1
          rw [dlookup_dpop_ne hptok]
          exact h3 p hpold hne hcf
      · intro q hq
        have hq' := (mem_dpop h2).mp hq
        rcases entryBackedB_eq_true_iff.mp (h4 q hq'.1) with ⟨r'', hr'', ht'', hc''⟩
        have hqe : q.2 ≠ email := by
          intro he
          rw [he, hr] at hr''
          have : r'' = r := (Option.some.inj hr'').symm
          rw [this, hrt] at ht''
          exact hq'.2 ht''.symm
        rw [entryBackedB_eq_true_iff]
        refine ⟨r'', ?_, ht'', hc''⟩
        show dlookup q.2 (dinsert email { r with confirmed := true } s.status) = some r''
        rw [dlookup_dinsert_ne hqe]
        exact hr''
      · intro p hp q hq htok
        rcases (mem_dinsert h1).mp hp with rfl | ⟨hpold, hpne⟩ <;>
          rcases (mem_dinsert h1).mp hq with rfl | ⟨hqold, hqne⟩
        · rfl
        · show email = q.1
          exact h5 (email, r) hrm q hqold (show r.token = q.2.token from htok)
        · show p.1 = email
          exact h5 p hpold (email, r) hrm (show p.2.token = r.token from htok)
        · exact h5 p hpold q hqold htok

theorem inv_request (s : WorkerState) (email : String) (now : Int) (tok : String)
    (hInv : Inv s) (hF : FreshTok s tok) : Inv (handle_request s email now tok).1 := by
  obtain ⟨h1, h2, h3, h4, h5⟩ := hInv
  obtain ⟨hF1, hF2⟩ := hF
  have hnew : ∀ (tm : Dict String), keysND tm → dlookup tok tm = none →
      (∀ p ∈ s.status, (p : String × Rec).2.token ≠ tok) →
      Inv { status := dinsert email ⟨false, 0, false, tok⟩ s.status,
            token_map := dinsert tok email tm } → True := fun _ _ _ _ _ => trivial
  cases hrec : dlookup email s.status with
  | none =>
    rw [handle_request_new now tok hrec]
    refine ⟨keysND_dinsert _ h1, keysND_dinsert _ h2, ?_, ?_, ?_⟩
    · intro p hp hne hcf
      rcases (mem_dinsert h1).mp hp with rfl | ⟨hpold, hpne⟩
      · exact dlookup_dinsert_self tok email s.token_map
      · show dlookup p.2.token (dinsert tok email s.token_map) = some p.1
        rw [dlookup_dinsert_ne (hF2 p hpold)]
        exact h3 p hpold hne hcf
    · intro q hq
      rcases (mem_dinsert h2).mp hq with rfl | ⟨hqold, hqne⟩
      · rw [entryBackedB_eq_true_iff]
        exact ⟨⟨false, 0, false, tok⟩, dlookup_dinsert_self email _ s.status, rfl, rfl⟩
      · rcases entryBackedB_eq_true_iff.mp (h4 q hqold) with ⟨r, hr, ht, hc⟩
        have hqe : q.2 ≠ email := by
          intro he
          rw [he, hrec] at hr
          exact Option.noConfusion hr
        rw [entryBackedB_eq_true_iff]
        refine ⟨r, ?_, ht, hc⟩
        show dlookup q.2 (dinsert email ⟨false, 0, false, tok⟩ s.status) = some r
        rw [dlookup_dinsert_ne hqe]
        exact hr
    · intro p hp q hq htok
      rcases (mem_dinsert h1).mp hp with rfl | ⟨hpold, hpne⟩ <;>
        rcases (mem_dinsert h1).mp hq with rfl | ⟨hqold, hqne⟩
      · rfl
      · exact absurd (show q.2.token = tok from htok.symm) (hF2 q hqold)
      · exact absurd (show p.2.token = tok from htok) (hF2 p hpold)
      · exact h5 p hpold q hqold htok
  | some rec =>
    cases hcf : rec.confirmed with
    | true =>
      rw [handle_request_confirmed now tok hrec hcf]
      exact ⟨h1, h2, h3, h4, h5⟩
    | false =>
      by_cases hsoon : rec.sent = true ∧ now - rec.ts < RESEND_WINDOW
      · rw [handle_request_toosoon tok hrec hcf hsoon.1 hsoon.2]
        exact ⟨h1, h2, h3, h4, h5⟩
      · rw [handle_request_resend tok hrec hcf hsoon]
        have hrm : (email, rec) ∈ s.status := mem_of_dlookup_some hrec
        refine ⟨keysND_dinsert _ h1, keysND_dinsert _ (keysND_dpop h2), ?_, ?_, ?_⟩
        · intro p hp hne hcfp
          rcases (mem_dinsert h1).mp hp with rfl | ⟨hpold, hpne⟩
          · exact dlookup_dinsert_self tok email _
          · have hpt1 : p.2.token ≠ tok := hF2 p hpold
            have hpt2 : p.2.token ≠ rec.token := by
              intro he
              exact hpne (h5 p hpold (email, rec) hrm he)
            show dlookup p.2.token (dinsert tok email (dpop rec.token s.token_map))
                = some p.1
            rw [dlookup_dinsert_ne hpt1, dlookup_dpop_ne hpt2]
            exact h3 p hpold hne hcfp
        · intro q hq
          rcases (mem_dinsert (keysND_dpop h2)).mp hq with rfl | ⟨hqold, hqne⟩
          · rw [entryBackedB_eq_true_iff]
            exact ⟨⟨false, 0, false, tok⟩, dlookup_dinsert_self email _ s.status, rfl, rfl⟩
          · have hq' := (mem_dpop h2).mp hqold
            rcases entryBackedB_eq_true_iff.mp (h4 q hq'.1) with ⟨r, hr, ht, hc⟩
            have hqe : q.2 ≠ email := by
              intro he
              rw [he, hrec] at hr
              have : r = rec := (Option.some.inj hr).symm
              rw [this] at ht
              exact hq'.2 ht.symm
            rw [entryBackedB_eq_true_iff]
            refine ⟨r, ?_, ht, hc⟩
            show dlookup q.2 (dinsert email ⟨false, 0, false, tok⟩ s.status) = some r
            rw [dlookup_dinsert_ne hqe]
            exact hr
        · intro p hp q hq htok
          rcases (mem_dinsert h1).mp hp with rfl | ⟨hpold, hpne⟩ <;>
            rcases (mem_dinsert h1).mp hq with rfl | ⟨hqold, hqne⟩
          · rfl
          · exact absurd (show q.2.token = tok from htok.symm) (hF2 q hqold)
          · exact absurd (show p.2.token = tok from htok) (hF2 p hpold)
          · exact h5 p hpold q hqold htok

/-- Every reachable state of the worker satisfies the invariant. -/
theorem reachable_inv {s : WorkerState} (h : Reachable s) : Inv s := by
  induction h with
  | init => exact inv_init
  | step _ hstep ih =>
    cases hstep with
    | request email now tok hF => exact inv_request _ email now tok ih hF
    | status email now => exact inv_status _ email now ih
    | confirm tok => exact inv_confirm _ tok ih
    | dispatch now outs => exact inv_dispatch _ now outs ih

/-! ### Concrete states used by witnesses and counterexamples -/

/-- The state after a first request for a@x.com at time 0 with fresh token tokA. -/
def sReq : WorkerState := (handle_request initState "a@x.com" 0 "tokA").1

/-- sReq after its token was redeemed: the record is confirmed but still live. -/
def sConf : WorkerState := (handle_confirm sReq "tokA").1

/-- The state after a first request for the empty address. -/
def sEmptyAddr : WorkerState := (handle_request initState "" 0 "tokE").1

/-- sEmptyAddr after a confirm attempt on its token: the token is consumed
but the record at the empty address stays unconfirmed. -/
def sEmptyConf : WorkerState := (handle_confirm sEmptyAddr "tokE").1

/-- A state whose record was dispatched at time 0 and is unconfirmed. -/
def sSent : WorkerState :=
  ⟨[("a@x.com", ⟨true, 0, false, "tokA"⟩)], [("tokA", "a@x.com")]⟩

/-- A state whose record is confirmed and awaiting lazy cleanup. -/
def sDone : WorkerState := ⟨[("a@x.com", ⟨true, 3, true, "tokA"⟩)], []⟩

/-- Two unsent unconfirmed records awaiting a dispatch cycle. -/
def sTwo : WorkerState :=
  ⟨[("a@x.com", ⟨false, 0, false, "tokA"⟩), ("b@y.com", ⟨false, 0, false, "tokB"⟩)],
   [("tokA", "a@x.com"), ("tokB", "b@y.com")]⟩

/-! ### Claim C1 -/

/-- Claim C1, amended: for an existing unconfirmed record, a repeated
requestConfirmation returns false exactly when the record has been
dispatched (sent is true) and less than the resend window has elapsed
since its dispatch time; in particular a second request on a record that
was never dispatched returns true again, not false. -/
theorem request_resend_gate_iff (s : WorkerState) (a : String) (now : Int) (tok : String)
    (rec : Rec) (h : dlookup a s.status = some rec) (hc : rec.confirmed = false) :
    (handle_request s a now tok).2 = false ↔
      (rec.sent = true ∧ now - rec.ts < RESEND_WINDOW) := by
  constructor
  · intro hf
    by_contra hn
    rw [handle_request_resend tok h hc hn] at hf
    exact Bool.noConfusion hf
  · intro hs
    rw [handle_request_toosoon tok h hc hs.1 hs.2]

/-- Witness for C1: on a record dispatched at time 0, a repeat request at
time 10 (inside the 30-second window) is refused. -/
theorem request_resend_gate_iff_witness :
    (handle_request sSent "a@x.com" 10 "tokB").2 = false :=
  (request_resend_gate_iff sSent "a@x.com" 10 "tokB" ⟨true, 0, false, "tokA"⟩
    (by decide) (by decide)).mpr (by decide)

/-- Counterexample to C1 as stated: the record created by the first
request is not yet sent, and a second request one second later returns
true (rotating the token), not false. -/
theorem request_unsent_counterexample :
    (handle_request initState "a@x.com" 0 "tokA").2 = true ∧
    dlookup "a@x.com" sReq.status = some ⟨false, 0, false, "tokA"⟩ ∧
    (handle_request sReq "a@x.com" 1 "tokB").2 = true ∧
    (handle_request sReq "a@x.com" 1 "tokB").2 ≠ false := by
  refine ⟨by decide, by decide, by decide, by decide⟩

/-! ### Claim C2 -/

/-- Claim C2, amended: in every reachable state the token index inverts
the token fields of the live unconfirmed records at non-empty addresses,
and every key of the token index is the current token of exactly one live
(unconfirmed) record; confirmed records, and records at the empty address
whose token was consumed by a failed confirm, remain live without an
index entry until cleaned up. -/
theorem token_index_inverse_on_unconfirmed (s : WorkerState) (h : Reachable s) :
    (∀ p ∈ s.status, (p : String × Rec).1 ≠ "" → p.2.confirmed = false →
        dlookup p.2.token s.token_map = some p.1) ∧
    (∀ q ∈ s.token_map, ∃ r, dlookup (q : String × String).2 s.status = some r ∧
        r.token = q.1 ∧ r.confirmed = false) ∧
    (∀ p ∈ s.status, ∀ p' ∈ s.status,
        (p : String × Rec).2.token = (p' : String × Rec).2.token → p.1 = p'.1) := by
  obtain ⟨h1, h2, h3, h4, h5⟩ := reachable_inv h
  refine ⟨h3, ?_, h5⟩
  intro q hq
  exact entryBackedB_eq_true_iff.mp (h4 q hq)

/-- Witness for C2: in the reachable state sReq the sole record's token
is indexed back to its address. -/
theorem token_index_inverse_witness :
    dlookup "tokA" sReq.token_map = some "a@x.com" := by
  have h := token_index_inverse_on_unconfirmed sReq
    (Reachable.step Reachable.init (Step.request initState "a@x.com" 0 "tokA" (by decide)))
  exact h.1 ("a@x.com", ⟨false, 0, false, "tokA"⟩) (by decide) (by decide) (by decide)

/-- Counterexample to C2 as stated: two reachable states with a live
record whose token is absent from the token index — a confirmed record
before lazy cleanup, and an unconfirmed record at the empty address after
a confirm attempt consumed its token. -/
theorem token_index_inverse_counterexample :
    (Reachable sConf ∧ dlookup "a@x.com" sConf.status = some ⟨false, 0, true, "tokA"⟩ ∧
      dlookup "tokA" sConf.token_map = none) ∧
    (Reachable sEmptyConf ∧ dlookup "" sEmptyConf.status = some ⟨false, 0, false, "tokE"⟩ ∧
      dlookup "tokE" sEmptyConf.token_map = none) := by
  refine ⟨⟨?_, by decide, by decide⟩, ⟨?_, by decide, by decide⟩⟩
  · exact Reachable.step (Reachable.step Reachable.init
      (Step.request initState "a@x.com" 0 "tokA" (by decide))) (Step.confirm sReq "tokA")
  · exact Reachable.step (Reachable.step Reachable.init
      (Step.request initState "" 0 "tokE" (by decide))) (Step.confirm sEmptyAddr "tokE")

/-! ### Claim C3 -/

/-- Claim C3, amended: in a reachable state, for a token indexed to a
non-empty address, confirmToken succeeds exactly once: the first call
returns true and marks the record confirmed, the token entry is removed,
and a second call with the same token returns false.  (For the empty
address the handler's truthiness test makes even the first call return
false.) -/
theorem confirm_fresh_token_once (s : WorkerState) (t a : String)
    (h : Reachable s) (ht : dlookup t s.token_map = some a) (ha : a ≠ "") :
    (handle_confirm s t).2 = true ∧
    (∃ r, dlookup a s.status = some r ∧
        dlookup a (handle_confirm s t).1.status = some { r with confirmed := true }) ∧
    dlookup t (handle_confirm s t).1.token_map = none ∧
    (handle_confirm (handle_confirm s t).1 t).2 = false := by
  obtain ⟨h1, h2, h3, h4, h5⟩ := reachable_inv h
  rcases entryBackedB_eq_true_iff.mp (h4 (t, a) (mem_of_dlookup_some ht))
    with ⟨r, hr, hrt, hrc⟩
  rw [handle_confirm_found ht ha hr]
  have hnone : dlookup t (dpop t s.token_map) = none := dlookup_dpop_self h2
  refine ⟨rfl, ⟨r, hr, dlookup_dinsert_self a _ s.status⟩, hnone, ?_⟩
  rw [handle_confirm_unknown hnone]

/-- Witness for C3: the token issued in sReq confirms once and then fails. -/
theorem confirm_fresh_token_once_witness :
    (handle_confirm sReq "tokA").2 = true ∧
    (handle_confirm (handle_confirm sReq "tokA").1 "tokA").2 = false := by
  have h := confirm_fresh_token_once sReq "tokA" "a@x.com"
    (Reachable.step Reachable.init (Step.request initState "a@x.com" 0 "tokA" (by decide)))
    (by decide) (by decide)
  exact ⟨h.1, h.2.2.2⟩

/-- Counterexample to C3 as stated: the token freshly issued for the empty
address, which has a live record, returns false already on the first
confirm call. -/
theorem confirm_fresh_token_counterexample :
    Reachable sEmptyAddr ∧
    dlookup "" sEmptyAddr.status = some ⟨false, 0, false, "tokE"⟩ ∧
    dlookup "tokE" sEmptyAddr.token_map = some "" ∧
    (handle_confirm sEmptyAddr "tokE").2 = false := by
  refine ⟨?_, by decide, by decide, by decide⟩
  exact Reachable.step Reachable.init (Step.request initState "" 0 "tokE" (by decide))

/-! ### Claim C4 -/

/-- Claim C4: a checkStatus on a confirmed record replies with a snapshot
carrying confirmed, then removes the record from both maps, so the very
next checkStatus for that address returns absent and mutates nothing. -/
theorem status_confirmed_cleanup (s : WorkerState) (a : String) (now now2 : Int)
    (rec : Rec) (h : dlookup a s.status = some rec) (hc : rec.confirmed = true)
    (h1 : keysND s.status) (h2 : keysND s.token_map) :
    (handle_status s a now).2 =
      some ⟨rec.sent, if rec.sent then max 0 (RESEND_WINDOW - (now - rec.ts)) else 0,
            true⟩ ∧
    dlookup a (handle_status s a now).1.status = none ∧
    dlookup rec.token (handle_status s a now).1.token_map = none ∧
    handle_status (handle_status s a now).1 a now2 = ((handle_status s a now).1, none) := by
  rw [handle_status_found now h, if_pos hc, hc]
  refine ⟨rfl, ?_, ?_, ?_⟩
  · exact dlookup_dpop_self h1
  · exact dlookup_dpop_self h2
  · exact handle_status_absent now2 (dlookup_dpop_self h1)

/-- Witness for C4: in sDone, one status call observes confirmed and the
next returns absent. -/
theorem status_confirmed_cleanup_witness :
    (handle_status sDone "a@x.com" 40).2 = some ⟨true, 0, true⟩ ∧
    handle_status (handle_status sDone "a@x.com" 40).1 "a@x.com" 41
      = ((handle_status sDone "a@x.com" 40).1, none) := by
  have h := status_confirmed_cleanup sDone "a@x.com" 40 41 ⟨true, 3, true, "tokA"⟩
    (by decide) (by decide) (by decide) (by decide)
  refine ⟨?_, h.2.2.2⟩
  rw [h.1]
  decide

/-! ### Claim C5 -/

/-- Claim C5: once at least the resend window has elapsed since the
dispatch time of a sent unconfirmed record, a second request succeeds,
installs a fresh-token unsent record, removes the old token from the
index, and a subsequent confirm with the old token fails. -/
theorem request_after_window_rotates (s : WorkerState) (a : String) (now : Int)
    (tok : String) (rec : Rec) (h : dlookup a s.status = some rec)
    (_hsent : rec.sent = true) (hc : rec.confirmed = false)
    (hw : RESEND_WINDOW ≤ now - rec.ts) (hft : tok ≠ rec.token)
    (h2 : keysND s.token_map) :
    (handle_request s a now tok).2 = true ∧
    dlookup a (handle_request s a now tok).1.status = some ⟨false, 0, false, tok⟩ ∧
    dlookup rec.token (handle_request s a now tok).1.token_map = none ∧
    (handle_confirm (handle_request s a now tok).1 rec.token).2 = false := by
  have hn : ¬(rec.sent = true ∧ now - rec.ts < RESEND_WINDOW) := by
    rintro ⟨-, hlt⟩
    exact absurd hw (not_le.mpr hlt)
  rw [handle_request_resend tok h hc hn]
  have hnone : dlookup rec.token (dinsert tok a (dpop rec.token s.token_map)) = none := by
    rw [dlookup_dinsert_ne (fun he => hft he.symm), dlookup_dpop_self h2]
  refine ⟨rfl, dlookup_dinsert_self a _ s.status, hnone, ?_⟩
  rw [handle_confirm_unknown hnone]

/-- Witness for C5: thirty seconds after dispatch, the resend succeeds
and the old token is dead. -/
theorem request_after_window_rotates_witness :
    (handle_request sSent "a@x.com" 30 "tokB").2 = true ∧
    (handle_confirm (handle_request sSent "a@x.com" 30 "tokB").1 "tokA").2 = false := by
  have h := request_after_window_rotates sSent "a@x.com" 30 "tokB" ⟨true, 0, false, "tokA"⟩
    (by decide) (by decide) (by decide) (by decide) (by decide) (by decide)
  exact ⟨h.1, h.2.2.2⟩

/-! ### Claim C6 -/

/-- Claim C6: a dispatch cycle selects exactly the unsent unconfirmed
records, every selected record leaves the cycle marked sent with its
dispatch time set to now, other records are untouched, and the state
transition is independent of the per-item delivery outcomes. -/
theorem dispatch_marks_selected (s : WorkerState) (now : Int) (outs : List Bool) :
    (∀ e t, (e, t) ∈ batchOf s ↔
        ∃ r, (e, r) ∈ s.status ∧ r.sent = false ∧ r.confirmed = false ∧ r.token = t) ∧
    (∀ e r, dlookup e s.status = some r →
        dlookup e (batch_cycle s now outs).status =
          some (if r.sent = false ∧ r.confirmed = false
                then { r with sent := true, ts := now } else r)) ∧
    batch_cycle s now outs = batch_cycle s now [] := by
  refine ⟨?_, ?_, rfl⟩
  · intro e t
    constructor
    · intro hmem
      rcases List.mem_map.mp hmem with ⟨⟨x1, x2⟩, hx, hxe⟩
      have hx' := List.mem_filter.mp hx
      have h1 : x1 = e := congrArg Prod.fst hxe
      have h2 : x2.token = t := congrArg Prod.snd hxe
      subst h1
      subst h2
      have hws : x2.sent = false ∧ x2.confirmed = false := by
        have hws' := hx'.2
        unfold wantsSend at hws'
        simpa [Bool.and_eq_true, Bool.not_eq_true'] using hws'
      exact ⟨x2, hx'.1, hws.1, hws.2, rfl⟩
    · rintro ⟨r, hr, hs, hcf, ht⟩
      refine List.mem_map.mpr ⟨(e, r), ?_, ?_⟩
      · refine List.mem_filter.mpr ⟨hr, ?_⟩
        unfold wantsSend
        rw [hs, hcf]
        rfl
      · rw [ht]
  · intro e r hr
    cases hb : (batchOf s).isEmpty with
    | true =>
      rw [batch_cycle_empty now outs hb, hr]
      have hnot : ¬(r.sent = false ∧ r.confirmed = false) := by
        intro hw
        have hmem : (e, r.token) ∈ batchOf s := List.mem_map.mpr
          ⟨(e, r), List.mem_filter.mpr ⟨mem_of_dlookup_some hr, by
              unfold wantsSend; rw [hw.1, hw.2]; rfl⟩, rfl⟩
        rw [List.isEmpty_iff.mp hb] at hmem
        exact absurd hmem (List.not_mem_nil _)
      rw [if_neg hnot]
    | false =>
      rw [batch_cycle_nonempty now outs hb]
      show dlookup e (s.status.map fun p => (p.1, markSent now p.2)) = _
      rw [dlookup_map_value, hr]
      obtain ⟨rs, rts, rc, rtok⟩ := r
      cases rs <;> cases rc <;> simp [markSent, wantsSend]

/-- Witness for C6: with two unsent records and the delivery collaborator
failing on the second item, both records end the cycle sent at time 5. -/
theorem dispatch_marks_selected_witness :
    dlookup "a@x.com" (batch_cycle sTwo 5 [true, false]).status
        = some ⟨true, 5, false, "tokA"⟩ ∧
    dlookup "b@y.com" (batch_cycle sTwo 5 [true, false]).status
        = some ⟨true, 5, false, "tokB"⟩ := by
  have h := (dispatch_marks_selected sTwo 5 [true, false]).2.1
  constructor
  · rw [h "a@x.com" ⟨false, 0, false, "tokA"⟩ (by decide)]
    decide
  · rw [h "b@y.com" ⟨false, 0, false, "tokB"⟩ (by decide)]
    decide

/-! ### Claim C7 -/

/-- Claim C7: checkStatus on an address with no record replies absent and
leaves the state exactly unchanged. -/
theorem status_absent_noop (s : WorkerState) (a : String) (now : Int)
    (h : dlookup a s.status = none) : handle_status s a now = (s, none) :=
  handle_status_absent now h

/-- Witness for C7: a status query on the fresh worker. -/
theorem status_absent_noop_witness :
    handle_status initState "a@x.com" 0 = (initState, none) :=
  status_absent_noop initState "a@x.com" 0 (by decide)

/-! ### Claim C8 -/

/-- Claim C8: requestConfirmation on a confirmed record replies true and
performs no mutation at all. -/
theorem request_confirmed_noop (s : WorkerState) (a : String) (now : Int) (tok : String)
    (rec : Rec) (h : dlookup a s.status = some rec) (hc : rec.confirmed = true) :
    handle_request s a now tok = (s, true) :=
  handle_request_confirmed now tok h hc

/-- Witness for C8: a repeat request on the confirmed record of sDone. -/
theorem request_confirmed_noop_witness :
    handle_request sDone "a@x.com" 50 "tokB" = (sDone, true) :=
  request_confirmed_noop sDone "a@x.com" 50 "tokB" ⟨true, 3, true, "tokA"⟩
    (by decide) (by decide)

/-! ### Claim C9 -/

/-- Claim C9: the snapshot for a live record carries the record's sent and
confirmed flags and remaining = max(0, resendWindow - (now - sentAt)) when
sent, else 0. -/
theorem status_snapshot_formula (s : WorkerState) (a : String) (now : Int)
    (rec : Rec) (h : dlookup a s.status = some rec) :
    (handle_status s a now).2 =
      some ⟨rec.sent,
            if rec.sent then max 0 (RESEND_WINDOW - (now - rec.ts)) else 0,
            rec.confirmed⟩ := by
  rw [handle_status_found now h]

/-- Witness for C9: ten seconds after dispatch, twenty seconds remain. -/
theorem status_snapshot_formula_witness :
    (handle_status sSent "a@x.com" 10).2 = some ⟨true, 20, false⟩ := by
  rw [status_snapshot_formula sSent "a@x.com" 10 ⟨true, 0, false, "tokA"⟩ (by decide)]
  decide

/-! ### Claim C10 -/

/-- Claim C10, amended: in every reachable state every token-index key is
the current token of a live unconfirmed record (so the record-missing
branch of the confirm handler never fires), and confirmToken returns true
exactly when the token is an index key mapping to a non-empty address;
a key mapping to the empty address is consumed but yields false because
of the handler's Python-truthiness test. -/
theorem confirm_iff_indexed_nonempty (s : WorkerState) (t : String) (h : Reachable s) :
    ((handle_confirm s t).2 = true ↔
      ∃ a, dlookup t s.token_map = some a ∧ a ≠ "") ∧
    (∀ q ∈ s.token_map, ∃ r, dlookup (q : String × String).2 s.status = some r ∧
        r.token = q.1 ∧ r.confirmed = false) := by
  obtain ⟨h1, h2, h3, h4, h5⟩ := reachable_inv h
  constructor
  · cases htk : dlookup t s.token_map with
    | none =>
      rw [handle_confirm_unknown htk]
      simp
    | some a =>
      by_cases ha : a = ""
      · subst ha
        rw [handle_confirm_empty htk]
        simp [htk]
      · rcases entryBackedB_eq_true_iff.mp (h4 (t, a) (mem_of_dlookup_some htk))
          with ⟨r, hr, -, -⟩
        rw [handle_confirm_found htk ha hr]
        constructor
        · intro _
          exact ⟨a, rfl, ha⟩
        · intro _
          rfl
  · intro q hq
    exact entryBackedB_eq_true_iff.mp (h4 q hq)

/-- Witness for C10: in sReq the indexed token tokA confirms successfully. -/
theorem confirm_iff_indexed_witness :
    (handle_confirm sReq "tokA").2 = true := by
  have h := confirm_iff_indexed_nonempty sReq "tokA"
    (Reachable.step Reachable.init (Step.request initState "a@x.com" 0 "tokA" (by decide)))
  exact h.1.mpr ⟨"a@x.com", by decide, by decide⟩

/-- Counterexample to C10 as stated: in the reachable state sEmptyAddr the
token tokE is a key of the index, yet confirmToken returns false. -/
theorem confirm_indexed_counterexample :
    Reachable sEmptyAddr ∧
    (dlookup "tokE" sEmptyAddr.token_map).isSome = true ∧
    (handle_confirm sEmptyAddr "tokE").2 = false := by
  refine ⟨?_, by decide, by decide⟩
  exact Reachable.step Reachable.init (Step.request initState "" 0 "tokE" (by decide))

end EmailConfirm
